import Mathlib

/-!
Shallow embedding of the demand-scoring and fuzzy text-matching core of the
DMS dashboard (src/app_supabase.py), together with proofs settling the frozen
claims C1..C10.

Strings are modelled as `List Char`; Python's `None`/empty-string falsiness is
modelled by the empty list.  SQL timestamps are modelled by a rational "age in
months before now".  SQL `NULL`-able values are modelled with `Option`.
Rationals stand in for Python/PostgreSQL floating point and numeric values,
with `ROUND(x, 2)` / pandas `.round(2)` modelled as exact round-half-to-even
at two decimals.
-/

namespace DMS

/-! ### Python string primitives

`isPySpace` is the character class of Python's `str.strip()` / `re`'s `\s`
(restricted to ASCII, the range the application's data lives in). -/

def isPySpace (c : Char) : Bool :=
  c == ' ' || c == '\t' || c == '\n' || c == '\r' || c == '\x0b' || c == '\x0c'

/-- A character is ASCII-lowercase (`97 ≤ code ≤ 122`). -/
def isLowerAscii (c : Char) : Prop := 'a' ≤ c ∧ c ≤ 'z'

instance (c : Char) : Decidable (isLowerAscii c) := by
  unfold isLowerAscii; infer_instance

/-- ASCII model of Python `str.upper()` applied to one character. -/
def upperChar (c : Char) : Char :=
  if isLowerAscii c then Char.ofNat (c.toNat - 32) else c

/-- Python `str.upper()` on a whole string. -/
def upperL (s : List Char) : List Char := s.map upperChar

/-- Drop the longest prefix of characters satisfying `p`. -/
def lstripBy (p : Char → Bool) (s : List Char) : List Char := s.dropWhile p

/-- Drop the longest suffix of characters satisfying `p`. -/
def rstripBy (p : Char → Bool) (s : List Char) : List Char :=
  (s.reverse.dropWhile p).reverse

/-- Python `str.strip()` with no arguments: trim whitespace at both ends. -/
def pyStrip (s : List Char) : List Char := rstripBy isPySpace (lstripBy isPySpace s)

/-- SQL `TRIM`: trim the space character (only) at both ends. -/
def sqlTrim (s : List Char) : List Char :=
  rstripBy (fun c => c == ' ') (lstripBy (fun c => c == ' ') s)

/-- The chain `.replace("-", " ").replace("_", " ").replace(".", " ")` from
`normalize_text`: the three patterns are single characters, so the sequential
replaces amount to one character-wise map. -/
def replacePunct (s : List Char) : List Char :=
  s.map (fun c => if c = '-' ∨ c = '_' ∨ c = '.' then ' ' else c)

/-- `re.sub(r"\s+", " ", s)`: every maximal run of whitespace characters is
replaced by a single space (runs at the ends included — `re.sub` does not
trim). -/
def collapseWS : List Char → List Char
  | [] => []
  | [c] => if isPySpace c then [' '] else [c]
  | c :: d :: rest =>
    if isPySpace c && isPySpace d then collapseWS (d :: rest)
    else (if isPySpace c then ' ' else c) :: collapseWS (d :: rest)

/-- `normalize_text` (src/app_supabase.py:860-867).

```python
def normalize_text(text: str) -> str:
    if not text:
        return ""
    text = str(text).upper().strip()
    text = text.replace("-", " ").replace("_", " ").replace(".", " ")
    text = re.sub(r"\s+", " ", text)      # (re is imported locally)
    return text
```

Note the order: `.strip()` runs before the punctuation replacement, so a `-`,
`_` or `.` at an end of the trimmed input turns into a space that is never
trimmed again. -/
def normalize_text (s : List Char) : List Char :=
  if s = [] then [] else collapseWS (replacePunct (pyStrip (upperL s)))

/-! ### Invariant predicates on strings -/

/-- Characters that can occur in `normalize_text` output: not ASCII-lowercase,
not one of the replaced punctuation characters, and whitespace only as `' '`. -/
def goodChar (c : Char) : Prop :=
  ¬ isLowerAscii c ∧ c ≠ '-' ∧ c ≠ '_' ∧ c ≠ '.' ∧ (isPySpace c = true → c = ' ')

/-- No two adjacent whitespace characters. -/
def noWSRun (l : List Char) : Prop :=
  l.Chain' (fun a b => ¬ (isPySpace a = true ∧ isPySpace b = true))

/-- Whether a string starts with a whitespace character. -/
def headIsSpace : List Char → Bool
  | [] => false
  | c :: _ => isPySpace c

/-! ### Rounding

`pandas.DataFrame.round(2)` (numpy) and PostgreSQL `ROUND(x::numeric, 2)` are
modelled as exact round-half-to-even at two decimal places on rationals. -/

/-- Round-half-to-even to the nearest integer. -/
def rhe (x : ℚ) : ℤ :=
  let f : ℤ := ⌊x⌋
  let r : ℚ := x - f
  if r < 1/2 then f else if 1/2 < r then f + 1 else if f % 2 = 0 then f else f + 1

/-- Round to two decimal places. -/
def round2 (x : ℚ) : ℚ := (rhe (x * 100) : ℚ) / 100

/-! ### Python `in`, `str.replace`, `str.split` -/

/-- Python's substring test `pat in s`. -/
def isSubstr (pat : List Char) : List Char → Bool
  | [] => pat.isEmpty
  | c :: cs => pat.isPrefixOf (c :: cs) || isSubstr pat cs

/-- Python `s.replace(pat, rep)`: left-to-right, non-overlapping replacement of
every occurrence.  Every pattern the source feeds to `str.replace` here (the
synonym keys and values) is non-empty; for an empty pattern this model returns
`s` unchanged. -/
def replaceAll (pat rep : List Char) : List Char → List Char
  | [] => []
  | c :: cs =>
    if pat ≠ [] ∧ pat.isPrefixOf (c :: cs) then
      rep ++ replaceAll pat rep (List.drop (pat.length - 1) cs)
    else c :: replaceAll pat rep cs
termination_by l => l.length
decreasing_by
  · simp; omega
  · simp

/-- Helper for `pySplit`: `cur` accumulates the current word, reversed. -/
def pySplitGo (cur : List Char) : List Char → List (List Char)
  | [] => if cur.isEmpty then [] else [cur.reverse]
  | c :: cs =>
    if isPySpace c then
      (if cur.isEmpty then pySplitGo [] cs else cur.reverse :: pySplitGo [] cs)
    else pySplitGo (c :: cur) cs

/-- Python `s.split()` with no arguments: split on whitespace runs, no empty
words. -/
def pySplit (s : List Char) : List (List Char) := pySplitGo [] s

/-- Python `" ".join(parts)`. -/
def joinSpace (parts : List (List Char)) : List Char := List.intercalate [' '] parts

/-! ### Synonym expander (src/app_supabase.py:871-911) -/

/-- The static synonym table of `get_motor_synonyms`. -/
def get_motor_synonyms : List (List Char × List (List Char)) := [
  (['R', 'E', 'N', 'A', 'U', 'L', 'T'],
    [['R', 'E', 'N'],
     ['R', 'E', 'N', 'O'],
     ['R']]),
  (['P', 'E', 'U', 'G', 'E', 'O', 'T'],
    [['P', 'E', 'U'],
     ['P', 'S', 'A'],
     ['P']]),
  (['C', 'I', 'T', 'R', 'O', 'E', 'N'],
    [['C', 'I', 'T'],
     ['C', 'I', 'T', 'R', 'O'],
     ['C']]),
  (['V', 'O', 'L', 'K', 'S', 'W', 'A', 'G', 'E', 'N'],
    [['V', 'W'],
     ['V', 'O', 'L', 'K', 'S']]),
  (['M', 'E', 'R', 'C', 'E', 'D', 'E', 'S'],
    [['M', 'E', 'R', 'C'],
     ['M', 'B'],
     ['M', 'E', 'R', 'C', 'E', 'D', 'E', 'S', '-', 'B', 'E', 'N', 'Z']]),
  (['B', 'M', 'W'],
    [['B', 'M']]),
  (['A', 'U', 'D', 'I'],
    [['A', 'U', 'D']]),
  (['F', 'O', 'R', 'D'],
    [['F']]),
  (['O', 'P', 'E', 'L'],
    [['O', 'P']]),
  (['F', 'I', 'A', 'T'],
    [['F', 'I', 'A']]),
  (['D', 'I', 'E', 'S', 'E', 'L'],
    [['G', 'A', 'S', 'O', 'I', 'L'],
     ['G', 'A', 'Z', 'O', 'L', 'E'],
     ['H', 'D', 'I'],
     ['D', 'C', 'I'],
     ['T', 'D', 'I'],
     ['C', 'D', 'I'],
     ['T', 'D', 'C', 'I'],
     ['D']]),
  (['E', 'S', 'S', 'E', 'N', 'C', 'E'],
    [['E', 'S', 'S'],
     ['E'],
     ['T', 'S', 'I'],
     ['T', 'F', 'S', 'I'],
     ['T', 'C', 'E']]),
  (['E', 'L', 'E', 'C', 'T', 'R', 'I', 'Q', 'U', 'E'],
    [['E', 'L', 'E', 'C'],
     ['E', 'V'],
     ['E', 'L', 'E', 'C', 'T', 'R', 'I', 'C']]),
  (['H', 'Y', 'B', 'R', 'I', 'D', 'E'],
    [['H', 'Y', 'B'],
     ['H', 'Y', 'B', 'R', 'I', 'D']]),
  (['T', 'U', 'R', 'B', 'O'],
    [['T'],
     ['T', 'U', 'R', 'B']]),
  (['I', 'N', 'J', 'E', 'C', 'T', 'I', 'O', 'N'],
    [['I', 'N', 'J'],
     ['I']]),
  (['C', 'O', 'M', 'M', 'O', 'N', ' ', 'R', 'A', 'I', 'L'],
    [['C', 'R'],
     ['C', 'O', 'M', 'M', 'O', 'N', 'R', 'A', 'I', 'L']]),
  (['B', 'O', 'I', 'T', 'E'],
    [['B', 'V'],
     ['B', 'A'],
     ['G', 'E', 'A', 'R', 'B', 'O', 'X']]),
  (['A', 'U', 'T', 'O', 'M', 'A', 'T', 'I', 'Q', 'U', 'E'],
    [['A', 'U', 'T', 'O'],
     ['A', 'T'],
     ['B', 'V', 'A']]),
  (['M', 'A', 'N', 'U', 'E', 'L', 'L', 'E'],
    [['M', 'A', 'N'],
     ['M', 'T'],
     ['B', 'V', 'M']])]

/-- `create_search_variants` (src/app_supabase.py:896-911).

```python
def create_search_variants(text: str) -> list:
    if not text:
        return []
    synonyms = get_motor_synonyms()
    variants = [normalize_text(text)]
    norm = normalize_text(text)
    for key, values in synonyms.items():
        for value in values:
            if value in norm:
                variants.append(norm.replace(value, key))
            if key in norm:
                for v in values:
                    variants.append(norm.replace(key, v))
    return list(set(variants))
```

`list(set(..))` yields the distinct variants in an unspecified order; this
model determinizes it as `dedup` (first occurrences kept). -/
def create_search_variants (text : List Char) : List (List Char) :=
  if text = [] then []
  else
    (normalize_text text :: get_motor_synonyms.flatMap (fun kv =>
      kv.2.flatMap (fun v =>
        (if isSubstr v (normalize_text text) then
          [replaceAll v kv.1 (normalize_text text)] else []) ++
        (if isSubstr kv.1 (normalize_text text) then
          kv.2.map (fun v2 => replaceAll kv.1 v2 (normalize_text text)) else [])))).dedup

/-! ### Fuzzy matcher (src/app_supabase.py:914-965) -/

/-- The columns of a need row that `smart_match_motor` reads (`row.get(...)`);
string-valued in this model, as produced by Python `str(...)`. -/
structure BesoinRow where
  code_moteur : List Char
  marque : List Char
  energie : List Char
  type_nom : List Char
  type_modele : List Char
  type_annee : List Char
deriving DecidableEq

/-- The composite normalized description `motor_norm` of a row. -/
def motorNorm (r : BesoinRow) : List Char :=
  normalize_text (joinSpace
    [r.code_moteur, r.marque, r.energie, r.type_nom, r.type_modele, r.type_annee])

/-- The total score `smart_match_motor` assigns to one row for one raw query:
`+100` query-in-description, `+50` per (distinct, non-empty) variant in the
description, `+10` per (query word of length ≥ 2, description word) pair in
mutual-substring relation, `+200` query-in-code. -/
def matchScore (search : List Char) (r : BesoinRow) : ℕ :=
  let search_norm := normalize_text search
  let variants := create_search_variants search
  let motor_norm := motorNorm r
  (if isSubstr search_norm motor_norm then 100 else 0) +
  50 * (variants.filter (fun v => !v.isEmpty && isSubstr v motor_norm)).length +
  10 * (((pySplit search_norm).filter (fun sw => 2 ≤ sw.length)).map
    (fun sw => ((pySplit motor_norm).filter
      (fun mw => isSubstr sw mw || isSubstr mw sw)).length)).sum +
  (if isSubstr search_norm (upperL r.code_moteur) then 200 else 0)

/-- Descending-by-key relation used for stable sorts. -/
def sortKeyRel {α β : Type} [LinearOrder β] (key : α → β) : α → α → Prop :=
  fun a b => key b ≤ key a

instance sortKeyRelDecidable {α β : Type} [LinearOrder β] (key : α → β) :
    DecidableRel (sortKeyRel key) :=
  fun a b => inferInstanceAs (Decidable (key b ≤ key a))

/-- Stable descending sort by a key (insertion sort; Python's `list.sort` with
`reverse=True` is stable with exactly this result). -/
def sortDescBy {α β : Type} [LinearOrder β] (key : α → β) (l : List α) : List α :=
  l.insertionSort (sortKeyRel key)

/-- `smart_match_motor` (src/app_supabase.py:914-965).  The source builds
`(index, score)` pairs, keeps those with `score > 0`, sorts them by score
descending (`list.sort` — stable) and returns the rows in that order; filtering
the rows and stable-sorting them by their score is the same computation. -/
def smart_match_motor (search : List Char) (besoins : List BesoinRow) : List BesoinRow :=
  if search = [] ∨ besoins = [] then besoins
  else
    sortDescBy (fun r => matchScore search r)
      (besoins.filter (fun r => 0 < matchScore search r))

/-! ### Need aggregator `get_besoins_moteurs` (src/app_supabase.py:1118-1195)

The SQL query is modelled over two point-in-time snapshots: the recent-sales
expedition rows (`ventes` CTE input) and the rows of the stock view
`v_moteurs_dispo` (`stock_dispo` CTE input).  The `achats` and `infos_types`
LEFT JOINs populate price and descriptive columns that no claim concerns; they
join at most one row per key and are omitted from the model. -/

/-- One expedition of the last-year sales log joined to its motor row:
the motor's (nullable) part code, its motor-type id, and the age in months of
`em.date_validation`. -/
structure Expedition where
  code_moteur : Option (List Char)
  n_type_moteur : ℕ
  ageMonths : ℚ

/-- A row of the `ventes` CTE: sales in the last 3 months grouped by
`(UPPER(code_moteur), n_type_moteur)`. -/
structure VenteRow where
  code_moteur : List Char
  n_type_moteur : ℕ
  nb_vendus_3m : ℕ
deriving DecidableEq

/-- The `ventes` CTE: filter to the 3-month window and non-null, non-blank
codes; group by `(UPPER(code), type)`; count. -/
def ventesRows (exps : List Expedition) : List VenteRow :=
  let valid := exps.filter (fun e =>
    decide (e.ageMonths ≤ 3) &&
      (match e.code_moteur with
       | none => false
       | some c => !(sqlTrim c).isEmpty))
  let keys := (valid.map (fun e => (upperL (e.code_moteur.getD []), e.n_type_moteur))).dedup
  keys.map (fun k =>
    { code_moteur := k.1, n_type_moteur := k.2,
      nb_vendus_3m := (valid.filter
        (fun e => (upperL (e.code_moteur.getD []), e.n_type_moteur) == k)).length })

/-- A row of the stock view `v_moteurs_dispo`: its part code, the view's
`est_disponible` flag (1 iff the unit has no expedition: in stock, unsold) and
the nullable `archiver` flag. -/
structure MoteurDispo where
  code_moteur : List Char
  est_disponible : Bool
  archiver : Option Bool

/-- The `stock_dispo` CTE count for one (uppercased) code:
`WHERE est_disponible = 1 AND (archiver IS NULL OR archiver = True)`,
grouped by `UPPER(code_moteur)`; codes absent from the CTE get `COALESCE 0`. -/
def stockDispoCount (units : List MoteurDispo) (code : List Char) : ℕ :=
  (units.filter (fun u =>
    u.est_disponible &&
      (match u.archiver with | none => true | some b => b) &&
      (upperL u.code_moteur == code))).length

/-- Modelled from the spec (§3 PartNeed / claim C6): count of in-stock,
unsold, NON-archived units for one code — a unit whose `archiver` flag is
`true` is excluded.  For comparison with `stockDispoCount`. -/
def specAvailNonArchived (units : List MoteurDispo) (code : List Char) : ℕ :=
  (units.filter (fun u =>
    u.est_disponible &&
      !(u.archiver == some true) &&
      (upperL u.code_moteur == code))).length

/-- An output row of `get_besoins_moteurs` (the claim-relevant columns). -/
structure Besoin where
  code_moteur : List Char
  nb_vendus_3m : ℕ
  nb_stock_dispo : ℕ
  score_urgence : ℚ
deriving DecidableEq

/-- `score_urgence = (nb_vendus_3m / (nb_stock_dispo + 1)).round(2)`
(src/app_supabase.py:1192). -/
def scoreUrgence (sales stock : ℕ) : ℚ := round2 ((sales : ℚ) / ((stock : ℚ) + 1))

/-- The pandas sort key of line 1193: descending by
`["score_urgence", "nb_vendus_3m"]`, i.e. lexicographic on the pair. -/
def besoinKey (b : Besoin) : Lex (ℚ × ℚ) := toLex (b.score_urgence, (b.nb_vendus_3m : ℚ))

/-- `get_besoins_moteurs` (src/app_supabase.py:1118-1195): the SQL query ends
with `ORDER BY v.nb_vendus_3m DESC LIMIT :topn`; the resulting frame then gets
`score_urgence` and is re-sorted by `(score_urgence, nb_vendus_3m)` descending.
SQL/pandas leave tie order unspecified; the model determinizes both sorts as
stable. -/
def get_besoins_moteurs (top_n : ℕ) (exps : List Expedition)
    (units : List MoteurDispo) : List Besoin :=
  let limited := (sortDescBy (fun v : VenteRow => v.nb_vendus_3m) (ventesRows exps)).take top_n
  let df := limited.map (fun v =>
    { code_moteur := v.code_moteur, nb_vendus_3m := v.nb_vendus_3m,
      nb_stock_dispo := stockDispoCount units v.code_moteur,
      score_urgence := scoreUrgence v.nb_vendus_3m (stockDispoCount units v.code_moteur) : Besoin })
  sortDescBy besoinKey df

/-- Modelled from the spec (§4.4 / claim C2): compute the scored need rows for
ALL codes with recent sales, sort by `(urgencyScore, recentSalesCount)`
descending, and truncate to `topN` only after that final sort. -/
def computeNeedsSpec (top_n : ℕ) (exps : List Expedition)
    (units : List MoteurDispo) : List Besoin :=
  let df := (ventesRows exps).map (fun v =>
    { code_moteur := v.code_moteur, nb_vendus_3m := v.nb_vendus_3m,
      nb_stock_dispo := stockDispoCount units v.code_moteur,
      score_urgence := scoreUrgence v.nb_vendus_3m (stockDispoCount units v.code_moteur) : Besoin })
  (sortDescBy besoinKey df).take top_n

/-! ### Price-movement detector `get_price_movers` (src/app_supabase.py:1350-1436)

Both the `achat` and the `vente` branch run the same aggregation, differing
only in which (code, date, price) triples feed it; the model takes those
triples as input. -/

/-- One price observation: part code, age in months of its date, nullable
price. -/
structure PriceObs where
  code_moteur : List Char
  ageMonths : ℚ
  prix : Option ℚ

/-- An observation surviving the `base` CTE filters. -/
structure BaseObs where
  code : List Char
  age : ℚ
  prix : ℚ
deriving DecidableEq

/-- The `base` CTE: lookback window, non-null positive price, uppercased
code. -/
def moversBase (lb : ℕ) (obs : List PriceObs) : List BaseObs :=
  obs.filterMap (fun o =>
    match o.prix with
    | none => none
    | some p =>
      if o.ageMonths ≤ (lb : ℚ) ∧ 0 < p then
        some { code := upperL o.code_moteur, age := o.ageMonths, prix := p }
      else none)

/-- The recent-window rows for one code: `dt >= NOW() - w months`. -/
def recentRows (w lb : ℕ) (obs : List PriceObs) (c : List Char) : List BaseObs :=
  (moversBase lb obs).filter (fun b => b.code == c && decide (b.age ≤ (w : ℚ)))

/-- The previous-window rows for one code:
`dt < NOW() - w months AND dt >= NOW() - 2*w months`. -/
def prevRows (w lb : ℕ) (obs : List PriceObs) (c : List Char) : List BaseObs :=
  (moversBase lb obs).filter (fun b =>
    b.code == c && decide ((w : ℚ) < b.age) && decide (b.age ≤ ((2 * w : ℕ) : ℚ)))

/-- SQL `AVG`: null on the empty set. -/
def avgOf (l : List ℚ) : Option ℚ :=
  if l.length = 0 then none else some (l.sum / (l.length : ℚ))

/-- An output row of `get_price_movers`. -/
structure MoverRec where
  code_moteur : List Char
  n_recent : ℕ
  n_prev : ℕ
  avg_prev : ℚ
  avg_recent : ℚ
  delta : ℚ
  pct : Option ℚ

/-- `get_price_movers` aggregation: per distinct code of `base`, window counts
and averages; keep codes with `n_recent >= minc AND n_prev >= minc` and both
averages non-null; `delta`/`pct` computed from the unrounded averages, output
columns rounded to 2 decimals, `pct` null when `avg_prev` is 0. -/
def get_price_movers (w lb minc : ℕ) (obs : List PriceObs) : List MoverRec :=
  ((moversBase lb obs).map (fun b => b.code)).dedup.filterMap (fun c =>
    let rs := recentRows w lb obs c
    let ps := prevRows w lb obs c
    match avgOf (rs.map (fun b => b.prix)), avgOf (ps.map (fun b => b.prix)) with
    | some aR, some aP =>
      if minc ≤ rs.length ∧ minc ≤ ps.length then
        some { code_moteur := c, n_recent := rs.length, n_prev := ps.length,
               avg_prev := round2 aP, avg_recent := round2 aR,
               delta := round2 (aR - aP),
               pct := if aP = 0 then none else some (round2 ((aR - aP) / aP * 100)) }
      else none
    | _, _ => none)

/-! ### Basic character lemmas -/

theorem toNat_ofNat_of_lt {n : Nat} (h : n < 55296) : (Char.ofNat n).toNat = n := by
  have hv : n.isValidChar := Or.inl h
  simp [Char.ofNat, dif_pos hv, Char.ofNatAux, Char.toNat, UInt32.toNat]

theorem le_iff_toNat_le {a b : Char} : a ≤ b ↔ a.toNat ≤ b.toNat := by
  cases a; cases b
  simp [Char.le_def, UInt32.le_def, Char.toNat, UInt32.toNat, BitVec.le_def]

theorem toNat_lower_a : Char.toNat 'a' = 97 := rfl

theorem not_isLowerAscii_upperChar (c : Char) : ¬ isLowerAscii (upperChar c) := by
  by_cases h : isLowerAscii c
  · have h97 : Char.toNat 'a' ≤ c.toNat := le_iff_toNat_le.mp h.1
    have h122 : c.toNat ≤ Char.toNat 'z' := le_iff_toNat_le.mp h.2
    rw [toNat_lower_a] at h97
    have h122' : c.toNat ≤ 122 := h122
    have hval : (Char.ofNat (c.toNat - 32)).toNat = c.toNat - 32 :=
      toNat_ofNat_of_lt (by omega)
    intro hcon
    rw [upperChar, if_pos h] at hcon
    have h1 : Char.toNat 'a' ≤ (Char.ofNat (c.toNat - 32)).toNat :=
      le_iff_toNat_le.mp hcon.1
    rw [hval, toNat_lower_a] at h1
    omega
  · rw [upperChar, if_neg h]; exact h

theorem upperChar_eq_self_of_not_lower {c : Char} (h : ¬ isLowerAscii c) :
    upperChar c = c := by
  rw [upperChar, if_neg h]

theorem upperChar_idem (c : Char) : upperChar (upperChar c) = upperChar c :=
  upperChar_eq_self_of_not_lower (not_isLowerAscii_upperChar c)

theorem toNat_le_of_isPySpace {c : Char} (h : isPySpace c = true) : c.toNat ≤ 32 := by
  simp only [isPySpace, Bool.or_eq_true, beq_iff_eq] at h
  rcases h with ((((h | h) | h) | h) | h) | h <;> subst h <;> decide

theorem upperChar_space_eq {c : Char} (h : isPySpace c = true) : upperChar c = c := by
  have hn := toNat_le_of_isPySpace h
  have : ¬ isLowerAscii c := by
    intro hl
    have h1 : Char.toNat 'a' ≤ c.toNat := le_iff_toNat_le.mp hl.1
    rw [toNat_lower_a] at h1
    omega
  exact upperChar_eq_self_of_not_lower this

/-! ### Invariants of `normalize_text` output -/

theorem goodChar_space : goodChar ' ' := by
  refine ⟨?_, ?_, ?_, ?_, fun _ => rfl⟩ <;> decide

theorem mem_collapseWS {c : Char} :
    ∀ {l : List Char}, c ∈ collapseWS l → c = ' ' ∨ (c ∈ l ∧ isPySpace c = false)
  | [], h => by simp [collapseWS] at h
  | [d], h => by
    rw [collapseWS] at h
    by_cases hd : isPySpace d
    · rw [if_pos hd] at h; simp at h; left; exact h
    · rw [if_neg hd] at h; simp at h; subst h
      right; exact ⟨List.mem_singleton_self _, by simpa using hd⟩
  | d :: e :: rest, h => by
    rw [collapseWS] at h
    by_cases hde : isPySpace d && isPySpace e
    · rw [if_pos hde] at h
      rcases mem_collapseWS h with h' | h'
      · left; exact h'
      · right; exact ⟨List.mem_cons_of_mem _ h'.1, h'.2⟩
    · rw [if_neg hde] at h
      rcases List.mem_cons.mp h with h' | h'
      · by_cases hd : isPySpace d
        · left; rw [h', if_pos hd]
        · right
          rw [h', if_neg hd]
          exact ⟨List.mem_cons_self _ _, by simpa using hd⟩
      · rcases mem_collapseWS h' with h'' | h''
        · left; exact h''
        · right; exact ⟨List.mem_cons_of_mem _ h''.1, h''.2⟩

theorem headIsSpace_collapseWS :
    ∀ l : List Char, headIsSpace (collapseWS l) = headIsSpace l
  | [] => rfl
  | [c] => by
    rw [collapseWS]
    by_cases hc : isPySpace c
    · rw [if_pos hc]; simp [headIsSpace, hc]; decide
    · rw [if_neg hc]
  | c :: d :: rest => by
    rw [collapseWS]
    by_cases hcd : isPySpace c && isPySpace d
    · rw [if_pos hcd]
      rw [headIsSpace_collapseWS (d :: rest)]
      simp only [Bool.and_eq_true] at hcd
      simp [headIsSpace, hcd.1, hcd.2]
    · rw [if_neg hcd]
      by_cases hc : isPySpace c
      · rw [if_pos hc]; simp [headIsSpace, hc]; decide
      · rw [if_neg hc]; simp [headIsSpace, hc]

theorem noWSRun_collapseWS : ∀ l : List Char, noWSRun (collapseWS l)
  | [] => List.chain'_nil
  | [c] => by
    rw [collapseWS]
    by_cases hc : isPySpace c
    · rw [if_pos hc]; exact List.chain'_singleton _
    · rw [if_neg hc]; exact List.chain'_singleton _
  | c :: d :: rest => by
    rw [collapseWS]
    by_cases hcd : isPySpace c && isPySpace d
    · rw [if_pos hcd]; exact noWSRun_collapseWS (d :: rest)
    · rw [if_neg hcd]
      refine List.Chain'.cons' (noWSRun_collapseWS (d :: rest)) ?_
      intro y hy
      intro ⟨h1, h2⟩
      have hhead : headIsSpace (collapseWS (d :: rest)) = headIsSpace (d :: rest) :=
        headIsSpace_collapseWS (d :: rest)
      have hy' : headIsSpace (collapseWS (d :: rest)) = true := by
        cases hcol : collapseWS (d :: rest) with
        | nil => rw [hcol] at hy; simp at hy
        | cons a tl =>
          rw [hcol] at hy; simp at hy; subst hy
          simp [headIsSpace, hcol] at hhead ⊢
          exact h2
      rw [hhead] at hy'
      simp only [headIsSpace] at hy'
      by_cases hc : isPySpace c
      · exact hcd (by simp [hc, hy'])
      · rw [if_neg hc] at h1; simp [hc] at h1

theorem collapseWS_eq_self :
    ∀ {l : List Char}, (∀ c ∈ l, isPySpace c = true → c = ' ') → noWSRun l →
      collapseWS l = l
  | [], _, _ => rfl
  | [c], hmem, _ => by
    rw [collapseWS]
    by_cases hc : isPySpace c
    · rw [if_pos hc, hmem c (List.mem_singleton_self _) hc]
    · rw [if_neg hc]
  | c :: d :: rest, hmem, hchain => by
    rw [collapseWS]
    have hcd : ¬ (isPySpace c && isPySpace d) := by
      have := (List.chain'_cons.mp hchain).1
      simpa using this
    rw [if_neg hcd]
    have htail : collapseWS (d :: rest) = d :: rest :=
      collapseWS_eq_self (fun x hx => hmem x (List.mem_cons_of_mem _ hx))
        (List.chain'_cons.mp hchain).2
    rw [htail]
    by_cases hc : isPySpace c
    · rw [if_pos hc, hmem c (List.mem_cons_self _ _) hc]
    · rw [if_neg hc]

theorem rstripBy_prefixOf (p : Char → Bool) (l : List Char) : rstripBy p l <+: l := by
  have h : (l.reverse.dropWhile p) <:+ l.reverse := List.dropWhile_suffix p
  exact List.reverse_suffix.mp (by simpa [rstripBy] using h)

theorem pyStrip_sublist (l : List Char) : List.Sublist (pyStrip l) l := by
  have h1 : List.Sublist (lstripBy isPySpace l) l := (List.dropWhile_suffix _).sublist
  have h2 : List.Sublist (pyStrip l) (lstripBy isPySpace l) :=
    (rstripBy_prefixOf isPySpace (lstripBy isPySpace l)).sublist
  exact h2.trans h1

theorem noWSRun_pyStrip {l : List Char} (h : noWSRun l) : noWSRun (pyStrip l) := by
  have h1 : noWSRun (lstripBy isPySpace l) :=
    List.Chain'.suffix h (List.dropWhile_suffix _)
  exact List.Chain'.prefix h1 (rstripBy_prefixOf _ _)

theorem goodChar_mem_normalize :
    ∀ (s : List Char), ∀ c ∈ normalize_text s, goodChar c := by
  intro s c hc
  rw [normalize_text] at hc
  by_cases hs : s = []
  · rw [if_pos hs] at hc; simp at hc
  · rw [if_neg hs] at hc
    rcases mem_collapseWS hc with h | ⟨h, hns⟩
    · rw [h]; exact goodChar_space
    · rcases List.mem_map.mp h with ⟨a, ha, hae⟩
      by_cases hp : a = '-' ∨ a = '_' ∨ a = '.'
      · rw [if_pos hp] at hae
        rw [← hae]; exact goodChar_space
      · rw [if_neg hp] at hae
        subst hae
        push_neg at hp
        have hau : a ∈ upperL s := (pyStrip_sublist _).mem ha
        rcases List.mem_map.mp hau with ⟨b, _, hb⟩
        exact ⟨hb ▸ not_isLowerAscii_upperChar b, hp.1, hp.2.1, hp.2.2,
          fun hsp => absurd hsp (by simp [hns])⟩

theorem noWSRun_normalize (s : List Char) : noWSRun (normalize_text s) := by
  rw [normalize_text]
  by_cases hs : s = []
  · rw [if_pos hs]; exact List.chain'_nil
  · rw [if_neg hs]; exact noWSRun_collapseWS _


/-! ### Stable descending sort lemmas -/

instance sortKeyRelTotal {α β : Type} [LinearOrder β] (key : α → β) :
    IsTotal α (sortKeyRel key) :=
  ⟨fun a b => le_total (key b) (key a)⟩

instance sortKeyRelTrans {α β : Type} [LinearOrder β] (key : α → β) :
    IsTrans α (sortKeyRel key) :=
  ⟨fun _ _ _ h1 h2 => le_trans h2 h1⟩

theorem perm_sortDescBy {α β : Type} [LinearOrder β] (key : α → β) (l : List α) :
    List.Perm (sortDescBy key l) l :=
  List.perm_insertionSort _ l

theorem pairwise_sortDescBy {α β : Type} [LinearOrder β] (key : α → β) (l : List α) :
    (sortDescBy key l).Pairwise (sortKeyRel key) :=
  List.sorted_insertionSort _ l

theorem sortDescBy_eq_self {α β : Type} [LinearOrder β] {key : α → β} {l : List α}
    (h : l.Pairwise (sortKeyRel key)) : sortDescBy key l = l :=
  List.Sorted.insertionSort_eq h

theorem filter_orderedInsert_key {α β : Type} [LinearOrder β] [DecidableEq β]
    (key : α → β) (k : β) (x : α) :
    ∀ l : List α,
      (List.orderedInsert (sortKeyRel key) x l).filter (fun a => key a == k) =
        (x :: l).filter (fun a => key a == k)
  | [] => rfl
  | y :: ys => by
    rw [List.orderedInsert]
    by_cases hxy : sortKeyRel key x y
    · rw [if_pos hxy]
    · rw [if_neg hxy]
      have hlt : key x < key y := lt_of_not_le hxy
      have ih := filter_orderedInsert_key key k x ys
      by_cases hx : key x = k
      · have hy : ¬ (key y = k) := by
          intro e
          exact absurd (e.trans hx.symm) (ne_of_gt hlt)
        simp only [List.filter_cons] at ih ⊢
        simp [hx, hy, ih]
      · simp only [List.filter_cons] at ih ⊢
        simp [hx, ih]

theorem filter_sortDescBy_key {α β : Type} [LinearOrder β] [DecidableEq β]
    (key : α → β) (k : β) :
    ∀ l : List α,
      (sortDescBy key l).filter (fun a => key a == k) = l.filter (fun a => key a == k)
  | [] => rfl
  | x :: xs => by
    have h1 : sortDescBy key (x :: xs) =
        List.orderedInsert (sortKeyRel key) x (sortDescBy key xs) := rfl
    rw [h1, filter_orderedInsert_key]
    have ih := filter_sortDescBy_key key k xs
    simp only [List.filter_cons] at ih ⊢
    by_cases hx : (key x == k) = true
    · simp [hx, ih]
    · simp [hx, ih]


/-! ### Identity lemmas used for the normalizer claims -/

theorem upperL_eq_self {l : List Char} (h : ∀ c ∈ l, ¬ isLowerAscii c) :
    upperL l = l := by
  rw [upperL]
  have h1 : ∀ c ∈ l, upperChar c = c :=
    fun c hc => upperChar_eq_self_of_not_lower (h c hc)
  rw [List.map_congr_left h1, List.map_id']

theorem replacePunct_eq_self {l : List Char}
    (h : ∀ c ∈ l, c ≠ '-' ∧ c ≠ '_' ∧ c ≠ '.') : replacePunct l = l := by
  rw [replacePunct]
  have h1 : ∀ c ∈ l, (if c = '-' ∨ c = '_' ∨ c = '.' then ' ' else c) = c := by
    intro c hc
    rcases h c hc with ⟨h1, h2, h3⟩
    rw [if_neg]
    rintro (e | e | e) <;> [exact h1 e; exact h2 e; exact h3 e]
  rw [List.map_congr_left h1, List.map_id']

/-- C7 (counterexample): the normalizer is not idempotent; on the input
`"K9K-"` the first pass yields `"K9K "` (the `-` became a space after the
trim) and the second pass trims that space away. -/
theorem normalize_not_idempotent :
    ¬ (∀ s : List Char, normalize_text (normalize_text s) = normalize_text s) := by
  intro h
  have h1 := h ['K', '9', 'K', '-']
  revert h1
  decide

/-- C7 (amended): a second application of the normalizer is exactly a trim of
the first: `normalize(normalize(s)) = strip(normalize(s))` for every string;
idempotence holds precisely on inputs whose normalized form carries no
leading/trailing space. -/
theorem normalize_normalize_eq_strip (s : List Char) :
    normalize_text (normalize_text s) = pyStrip (normalize_text s) := by
  by_cases hu : normalize_text s = []
  · rw [hu]; rfl
  · have hgood := goodChar_mem_normalize s
    have hchain := noWSRun_normalize s
    conv_lhs => rw [normalize_text]
    rw [if_neg hu]
    have h1 : upperL (normalize_text s) = normalize_text s :=
      upperL_eq_self (fun c hc => (hgood c hc).1)
    rw [h1]
    have hmemStrip : ∀ c ∈ pyStrip (normalize_text s), goodChar c :=
      fun c hc => hgood c ((pyStrip_sublist _).mem hc)
    have h2 : replacePunct (pyStrip (normalize_text s)) = pyStrip (normalize_text s) :=
      replacePunct_eq_self (fun c hc =>
        ⟨(hmemStrip c hc).2.1, (hmemStrip c hc).2.2.1, (hmemStrip c hc).2.2.2.1⟩)
    rw [h2]
    exact collapseWS_eq_self (fun c hc hsp => (hmemStrip c hc).2.2.2.2 hsp)
      (noWSRun_pyStrip hchain)

/-- C8 (counterexample): the normalizer output is not always trimmed — for
input `"K9K-"` the output is `"K9K "`, which still carries a trailing space. -/
theorem normalize_output_not_trimmed :
    ¬ (∀ s : List Char, pyStrip (normalize_text s) = normalize_text s) := by
  intro h
  have h1 := h ['K', '9', 'K', '-']
  revert h1
  decide

/-- C8 (amended): the normalizer uppercases, replaces `-`/`_`/`.` by spaces
and collapses whitespace runs (so the output has no lowercase ASCII letter, no
replaced punctuation character, and whitespace only as single non-adjacent
spaces); empty input yields the empty string, and
`normalize("  K9K   DIESEL ") = "K9K DIESEL"`.  (Trimming happens before the
punctuation replacement, so the output may keep one leading/trailing space —
see the counterexample.) -/
theorem normalize_characterization :
    normalize_text
        [' ', ' ', 'K', '9', 'K', ' ', ' ', ' ', 'D', 'I', 'E', 'S', 'E', 'L', ' '] =
      ['K', '9', 'K', ' ', 'D', 'I', 'E', 'S', 'E', 'L'] ∧
    normalize_text [] = [] ∧
    (∀ s : List Char, ∀ c ∈ normalize_text s,
      ¬ isLowerAscii c ∧ c ≠ '-' ∧ c ≠ '_' ∧ c ≠ '.' ∧ (isPySpace c = true → c = ' ')) ∧
    (∀ s : List Char, noWSRun (normalize_text s)) :=
  ⟨by decide, rfl, fun s c hc => goodChar_mem_normalize s c hc, noWSRun_normalize⟩

/-- Witness for `normalize_characterization`: the membership hypothesis of its
third conjunct discharged on a concrete input. -/
theorem normalize_characterization_witness :
    ('K' ∈ normalize_text ['k', '9', 'k']) ∧
      (¬ isLowerAscii 'K' ∧ 'K' ≠ '-' ∧ 'K' ≠ '_' ∧ 'K' ≠ '.' ∧
        (isPySpace 'K' = true → 'K' = ' ')) :=
  ⟨by decide, normalize_characterization.2.2.1 ['k', '9', 'k'] 'K' (by decide)⟩


/-! ### Synonym expander and matcher lemmas -/

theorem isSubstr_nil_pat : ∀ l : List Char, isSubstr [] l = true
  | [] => rfl
  | _ :: _ => by rw [isSubstr]; simp [List.isPrefixOf]

theorem pairwise_of_forall {α : Type} {R : α → α → Prop} (h : ∀ a b, R a b) :
    ∀ l : List α, l.Pairwise R
  | [] => List.Pairwise.nil
  | a :: t => List.Pairwise.cons (fun b _ => h a b) (pairwise_of_forall h t)

theorem normalize_all_space {q : List Char} (h : ∀ c ∈ q, isPySpace c = true) :
    normalize_text q = [] := by
  by_cases hq : q = []
  · rw [hq]; rfl
  · rw [normalize_text, if_neg hq]
    have h1 : upperL q = q := by
      rw [upperL]
      have : ∀ c ∈ q, upperChar c = c := fun c hc => upperChar_space_eq (h c hc)
      rw [List.map_congr_left this, List.map_id']
    rw [h1]
    have h2 : lstripBy isPySpace q = [] := by
      rw [lstripBy, List.dropWhile_eq_nil_iff]
      intro c hc
      exact h c hc
    rw [pyStrip, h2]
    rfl

theorem variants_all_space {q : List Char} (hq : q ≠ [])
    (hnorm : normalize_text q = []) : create_search_variants q = [[]] := by
  rw [create_search_variants, if_neg hq, hnorm]
  decide

theorem matchScore_all_space {q : List Char} (r : BesoinRow) (hq : q ≠ [])
    (hnorm : normalize_text q = []) : matchScore q r = 300 := by
  rw [matchScore]
  simp only [hnorm, variants_all_space hq hnorm, isSubstr_nil_pat]
  norm_num [pySplit, pySplitGo, List.filter]

/-- C9: a null/empty query and an empty candidate list are identity cases, and
a whitespace-only (blank) query also returns the candidates unchanged: it is
truthy in Python, but normalizes to the empty string, so every row scores
exactly `100 + 200 = 300` and the stable sort keeps the original order. -/
theorem smart_match_empty_inputs :
    (∀ rows : List BesoinRow, smart_match_motor [] rows = rows) ∧
    (∀ q : List Char, smart_match_motor q [] = []) ∧
    (∀ (q : List Char) (rows : List BesoinRow), q ≠ [] →
      (∀ c ∈ q, isPySpace c = true) → smart_match_motor q rows = rows) := by
  refine ⟨?_, ?_, ?_⟩
  · intro rows
    rw [smart_match_motor, if_pos (Or.inl rfl)]
  · intro q
    rw [smart_match_motor, if_pos (Or.inr rfl)]
  · intro q rows hq hsp
    by_cases hrows : rows = []
    · rw [hrows, smart_match_motor, if_pos (Or.inr rfl)]
    · rw [smart_match_motor, if_neg (by simp [hq, hrows])]
      have hnorm := normalize_all_space hsp
      have hscore : ∀ r ∈ rows, (0 < matchScore q r) :=
        fun r _ => by rw [matchScore_all_space r hq hnorm]; norm_num
      have h1 : rows.filter (fun r => 0 < matchScore q r) = rows := by
        rw [List.filter_eq_self]
        intro r hr
        simpa using hscore r hr
      rw [h1]
      exact sortDescBy_eq_self (pairwise_of_forall
        (fun a b => by
          show matchScore q b ≤ matchScore q a
          rw [matchScore_all_space a hq hnorm, matchScore_all_space b hq hnorm]) rows)

/-- Witness for `smart_match_empty_inputs`: the blank-query case applied to a
concrete one-character whitespace query and a concrete row. -/
theorem smart_match_empty_inputs_witness :
    ([' '] ≠ ([] : List Char)) ∧
      smart_match_motor [' ']
          [{ code_moteur := ['K', '9', 'K'], marque := [], energie := [],
             type_nom := [], type_modele := [], type_annee := [] }] =
        [{ code_moteur := ['K', '9', 'K'], marque := [], energie := [],
           type_nom := [], type_modele := [], type_annee := [] }] :=
  ⟨by decide, smart_match_empty_inputs.2.2 [' '] _ (by decide) (by decide)⟩

/-- C10 (counterexample): for the empty input the synonym expander returns the
empty list, which does not contain the normalized input (the empty string). -/
theorem variants_empty_input_counterexample :
    ¬ (∀ text : List Char,
        normalize_text text ∈ create_search_variants text ∧
          (create_search_variants text).Nodup) := by
  intro h
  have h1 := (h []).1
  revert h1
  decide

/-- C10 (amended): for every NON-empty input the variant list contains the
normalized input itself; for every input the returned list is duplicate-free;
the empty input yields the empty list. -/
theorem variants_contain_norm_nodup :
    (∀ text : List Char, text ≠ [] →
      normalize_text text ∈ create_search_variants text) ∧
    (∀ text : List Char, (create_search_variants text).Nodup) ∧
    create_search_variants [] = [] := by
  refine ⟨?_, ?_, rfl⟩
  · intro t ht
    rw [create_search_variants, if_neg ht]
    exact List.mem_dedup.mpr (List.mem_cons_self _ _)
  · intro t
    rw [create_search_variants]
    by_cases ht : t = []
    · rw [if_pos ht]; exact List.nodup_nil
    · rw [if_neg ht]; exact List.nodup_dedup _

/-- Witness for `variants_contain_norm_nodup`: its non-emptiness hypothesis
discharged on a concrete input. -/
theorem variants_contain_norm_nodup_witness :
    (['K'] ≠ ([] : List Char)) ∧
      normalize_text ['K'] ∈ create_search_variants ['K'] :=
  ⟨by decide, variants_contain_norm_nodup.1 ['K'] (by decide)⟩


/-! ### Rounding lemmas -/

theorem rhe_ge_floor (x : ℚ) : ⌊x⌋ ≤ rhe x := by
  simp only [rhe]
  split_ifs <;> omega

theorem rhe_le_floor_add_one (x : ℚ) : rhe x ≤ ⌊x⌋ + 1 := by
  simp only [rhe]
  split_ifs <;> omega

theorem rhe_eq_low {x : ℚ} {f : ℤ} (hf : ⌊x⌋ = f) (h3 : x - f < 1/2) : rhe x = f := by
  simp only [rhe, hf, if_pos h3]

theorem rhe_eq_high {x : ℚ} {f : ℤ} (hf : ⌊x⌋ = f) (h3 : 1/2 < x - f) : rhe x = f + 1 := by
  have h4 : ¬ (x - (f : ℚ) < 1/2) := by linarith
  simp only [rhe, hf, if_neg h4, if_pos h3]

theorem round2_concrete {x : ℚ} {f : ℤ} (h1 : (f : ℚ) ≤ x * 100) (h2 : x * 100 < f + 1)
    (h3 : x * 100 - f < 1/2) : round2 x = (f : ℚ) / 100 := by
  rw [round2, rhe_eq_low (Int.floor_eq_iff.mpr ⟨h1, h2⟩) h3]

theorem round2_concrete_up {x : ℚ} {f : ℤ} (h1 : (f : ℚ) ≤ x * 100) (h2 : x * 100 < f + 1)
    (h3 : 1/2 < x * 100 - f) : round2 x = ((f : ℚ) + 1) / 100 := by
  rw [round2, rhe_eq_high (Int.floor_eq_iff.mpr ⟨h1, h2⟩) h3]
  push_cast
  ring_nf

theorem rhe_mono {x y : ℚ} (h : x ≤ y) : rhe x ≤ rhe y := by
  have hfl : ⌊x⌋ ≤ ⌊y⌋ := Int.floor_le_floor h
  rcases lt_or_eq_of_le hfl with hlt | heq
  · calc rhe x ≤ ⌊x⌋ + 1 := rhe_le_floor_add_one x
      _ ≤ ⌊y⌋ := by omega
      _ ≤ rhe y := rhe_ge_floor y
  · by_cases hx1 : x - ⌊x⌋ < 1/2
    · have hex : rhe x = ⌊x⌋ := rhe_eq_low rfl hx1
      rw [hex, heq]
      exact rhe_ge_floor y
    · push_neg at hx1
      have hxy : x - (⌊x⌋ : ℚ) ≤ y - (⌊y⌋ : ℚ) := by
        rw [← heq]
        linarith
      by_cases hx2 : 1/2 < x - ⌊x⌋
      · have hy2 : 1/2 < y - ⌊y⌋ := lt_of_lt_of_le hx2 hxy
        rw [rhe_eq_high rfl hx2, rhe_eq_high rfl hy2, heq]
      · push_neg at hx2
        have hxeq : x - (⌊x⌋ : ℚ) = 1/2 := le_antisymm hx2 hx1
        by_cases hy2 : 1/2 < y - ⌊y⌋
        · rw [rhe_eq_high rfl hy2, ← heq]
          exact rhe_le_floor_add_one x
        · push_neg at hy2
          have hyeq : y - (⌊y⌋ : ℚ) = 1/2 := le_antisymm hy2 (le_trans hxeq.ge hxy)
          have hxy' : x = y := by
            have h1 : x = (⌊x⌋ : ℚ) + 1/2 := by linarith
            have h2 : y = (⌊y⌋ : ℚ) + 1/2 := by linarith
            rw [h1, h2, heq]
          rw [hxy']

/-! ### Claims C1 and C5: the urgency-score formula -/

/-- C5 (counterexample): with the 2-decimal rounding included, the urgency
score is NOT strictly decreasing in the stock count: for `sales = 1` the
stocks 999 and 1999 both yield a rounded score of `0.00`. -/
theorem score_not_strictly_decreasing :
    ¬ (∀ sales s1 s2 : ℕ, 0 < sales → s1 < s2 →
        scoreUrgence sales s2 < scoreUrgence sales s1) := by
  intro h
  have h1 := h 1 999 1999 (by norm_num) (by norm_num)
  have e1 : scoreUrgence 1 999 = 0 := by
    rw [scoreUrgence, round2_concrete (f := 0) (by norm_num) (by norm_num) (by norm_num)]
    norm_num
  have e2 : scoreUrgence 1 1999 = 0 := by
    rw [scoreUrgence, round2_concrete (f := 0) (by norm_num) (by norm_num) (by norm_num)]
    norm_num
  rw [e1, e2] at h1
  exact lt_irrefl 0 h1

/-- C5 (amended): the urgency score (rounding included) is NON-increasing in
the stock count for a fixed sales count. -/
theorem score_antitone_in_stock (sales s1 s2 : ℕ) (h : s1 ≤ s2) :
    scoreUrgence sales s2 ≤ scoreUrgence sales s1 := by
  rw [scoreUrgence, scoreUrgence, round2, round2]
  have hd : (sales : ℚ) / ((s2 : ℚ) + 1) * 100 ≤ (sales : ℚ) / ((s1 : ℚ) + 1) * 100 := by
    have h1 : (0 : ℚ) ≤ (sales : ℚ) := Nat.cast_nonneg _
    have h2 : (0 : ℚ) < (s1 : ℚ) + 1 := by positivity
    have h3 : (s1 : ℚ) + 1 ≤ (s2 : ℚ) + 1 := by
      have hc : (s1 : ℚ) ≤ (s2 : ℚ) := Nat.cast_le.mpr h
      linarith
    gcongr
  have hr := rhe_mono hd
  have hc : ((rhe ((sales : ℚ) / ((s2 : ℚ) + 1) * 100) : ℤ) : ℚ) ≤
      ((rhe ((sales : ℚ) / ((s1 : ℚ) + 1) * 100) : ℤ) : ℚ) := Int.cast_le.mpr hr
  linarith

/-- Witness for `score_antitone_in_stock` on concrete stock counts. -/
theorem score_antitone_in_stock_witness :
    (4 ≤ 9) ∧ scoreUrgence 10 9 ≤ scoreUrgence 10 4 :=
  ⟨by norm_num, score_antitone_in_stock 10 4 9 (by norm_num)⟩

/-- C1: every output row of the need aggregator carries
`score = round2(sales / (stock + 1))`, and in particular at `sales = 10` the
score is `10.00`, `2.00`, `1.00` for stock `0`, `4`, `9`. -/
theorem besoins_score_formula :
    (∀ (top_n : ℕ) (exps : List Expedition) (units : List MoteurDispo),
      ∀ b ∈ get_besoins_moteurs top_n exps units,
        b.score_urgence = round2 ((b.nb_vendus_3m : ℚ) / ((b.nb_stock_dispo : ℚ) + 1))) ∧
    scoreUrgence 10 0 = 10 ∧ scoreUrgence 10 4 = 2 ∧ scoreUrgence 10 9 = 1 := by
  refine ⟨?_, ?_, ?_, ?_⟩
  · intro top_n exps units b hb
    simp only [get_besoins_moteurs] at hb
    have hb2 := (perm_sortDescBy besoinKey _).mem_iff.mp hb
    rcases List.mem_map.mp hb2 with ⟨v, _, rfl⟩
    rfl
  · rw [scoreUrgence, round2_concrete (f := 1000) (by norm_num) (by norm_num) (by norm_num)]
    norm_num
  · rw [scoreUrgence, round2_concrete (f := 200) (by norm_num) (by norm_num) (by norm_num)]
    norm_num
  · rw [scoreUrgence, round2_concrete (f := 100) (by norm_num) (by norm_num) (by norm_num)]
    norm_num

/-- Witness for `besoins_score_formula`: its membership hypothesis discharged
on a one-expedition snapshot. -/
theorem besoins_score_formula_witness :
    ((⟨['A'], 1, 0, scoreUrgence 1 0⟩ : Besoin) ∈
        get_besoins_moteurs 5 [⟨some ['A'], 0, 1⟩] []) ∧
      (⟨['A'], 1, 0, scoreUrgence 1 0⟩ : Besoin).score_urgence =
        round2 (((1 : ℕ) : ℚ) / (((0 : ℕ) : ℚ) + 1)) := by
  have hmem : (⟨['A'], 1, 0, scoreUrgence 1 0⟩ : Besoin) ∈
      get_besoins_moteurs 5 [⟨some ['A'], 0, 1⟩] [] := by
    have h : get_besoins_moteurs 5 [⟨some ['A'], 0, 1⟩] [] =
        [⟨['A'], 1, 0, scoreUrgence 1 0⟩] := rfl
    rw [h]
    exact List.mem_singleton_self _
  exact ⟨hmem, besoins_score_formula.1 5 [⟨some ['A'], 0, 1⟩] [] _ hmem⟩


/-! ### Claim C2: truncation versus final sort -/

/-- C2 (counterexample): the truncation to `topN` is NOT applied after the
final `(score, sales)` sort over all codes — the SQL limits to the `topN`
codes by SALES first.  With codes A (2 sales, 3 in stock, score 0.50) and
B (1 sale, 0 in stock, score 1.00) and `topN = 1`, the code returns A while
the claimed computation returns B. -/
theorem besoins_truncation_counterexample :
    ¬ (∀ (top_n : ℕ) (exps : List Expedition) (units : List MoteurDispo),
        get_besoins_moteurs top_n exps units = computeNeedsSpec top_n exps units) := by
  intro h
  have e23 : scoreUrgence 2 3 = 1/2 := by
    rw [scoreUrgence, round2_concrete (f := 50) (by norm_num) (by norm_num) (by norm_num)]
    norm_num
  have e10 : scoreUrgence 1 0 = 1 := by
    rw [scoreUrgence, round2_concrete (f := 100) (by norm_num) (by norm_num) (by norm_num)]
    norm_num
  have hget : get_besoins_moteurs 1
      [⟨some ['A'], 0, 1⟩, ⟨some ['A'], 0, 1⟩, ⟨some ['B'], 0, 1⟩]
      [⟨['A'], true, none⟩, ⟨['A'], true, none⟩, ⟨['A'], true, none⟩] =
      [⟨['A'], 2, 3, scoreUrgence 2 3⟩] := rfl
  have hkey : ¬ sortKeyRel besoinKey (⟨['A'], 2, 3, scoreUrgence 2 3⟩ : Besoin)
      (⟨['B'], 1, 0, scoreUrgence 1 0⟩ : Besoin) := by
    intro hcon
    simp only [sortKeyRel, besoinKey] at hcon
    rw [Prod.Lex.le_iff] at hcon
    rw [e23, e10] at hcon
    rcases hcon with hcon | ⟨hcon, _⟩ <;> norm_num at hcon
  have hspec : computeNeedsSpec 1
      [⟨some ['A'], 0, 1⟩, ⟨some ['A'], 0, 1⟩, ⟨some ['B'], 0, 1⟩]
      [⟨['A'], true, none⟩, ⟨['A'], true, none⟩, ⟨['A'], true, none⟩] =
      [⟨['B'], 1, 0, scoreUrgence 1 0⟩] := by
    show (sortDescBy besoinKey
      [⟨['A'], 2, 3, scoreUrgence 2 3⟩, ⟨['B'], 1, 0, scoreUrgence 1 0⟩]).take 1 =
        [⟨['B'], 1, 0, scoreUrgence 1 0⟩]
    rw [sortDescBy]
    simp only [List.insertionSort, List.orderedInsert]
    rw [if_neg hkey]
    rfl
  have h1 := h 1 [⟨some ['A'], 0, 1⟩, ⟨some ['A'], 0, 1⟩, ⟨some ['B'], 0, 1⟩]
    [⟨['A'], true, none⟩, ⟨['A'], true, none⟩, ⟨['A'], true, none⟩]
  rw [hget, hspec] at h1
  have h2 := congrArg (fun l => l.map (fun b : Besoin => b.code_moteur)) h1
  simp only [List.map_cons, List.map_nil] at h2
  exact absurd h2 (by decide)

/-- C2 (amended): the output IS sorted descending by the lexicographic pair
`(urgencyScore, recentSalesCount)`, but it is a permutation of the `topN`
rows by SALES COUNT (the SQL truncates with `ORDER BY nb_vendus_3m DESC
LIMIT topN` before the score exists), so its length is
`min topN (number of sales groups)`. -/
theorem besoins_sorted_topn_by_sales (top_n : ℕ) (exps : List Expedition)
    (units : List MoteurDispo) :
    (get_besoins_moteurs top_n exps units).Pairwise (sortKeyRel besoinKey) ∧
    List.Perm (get_besoins_moteurs top_n exps units)
      (((sortDescBy (fun v : VenteRow => v.nb_vendus_3m) (ventesRows exps)).take top_n).map
        (fun v =>
          { code_moteur := v.code_moteur, nb_vendus_3m := v.nb_vendus_3m,
            nb_stock_dispo := stockDispoCount units v.code_moteur,
            score_urgence :=
              scoreUrgence v.nb_vendus_3m (stockDispoCount units v.code_moteur) : Besoin })) ∧
    (get_besoins_moteurs top_n exps units).length = min top_n (ventesRows exps).length := by
  refine ⟨pairwise_sortDescBy _ _, perm_sortDescBy _ _, ?_⟩
  simp only [get_besoins_moteurs]
  rw [(perm_sortDescBy _ _).length_eq, List.length_map, List.length_take,
    (perm_sortDescBy _ _).length_eq]

/-! ### Claim C6: what the stock count counts -/

/-- C6 (counterexample): an ARCHIVED unit (`archiver = TRUE`) DOES contribute
to `nb_stock_dispo` — the SQL filter is
`archiver IS NULL OR archiver = True` — so the output stock count is not the
count of non-archived available units. -/
theorem stock_count_archiver_counterexample :
    ¬ (∀ (top_n : ℕ) (exps : List Expedition) (units : List MoteurDispo),
        ∀ b ∈ get_besoins_moteurs top_n exps units,
          b.nb_stock_dispo = specAvailNonArchived units b.code_moteur) := by
  intro h
  have hmem : (⟨['A'], 1, 1, scoreUrgence 1 1⟩ : Besoin) ∈
      get_besoins_moteurs 5 [⟨some ['A'], 0, 1⟩] [⟨['A'], true, some true⟩] := by
    have hg : get_besoins_moteurs 5 [⟨some ['A'], 0, 1⟩] [⟨['A'], true, some true⟩] =
        [⟨['A'], 1, 1, scoreUrgence 1 1⟩] := rfl
    rw [hg]
    exact List.mem_singleton_self _
  have h1 := h 5 [⟨some ['A'], 0, 1⟩] [⟨['A'], true, some true⟩] _ hmem
  exact absurd h1 (by decide)

/-- C6 (amended): `nb_stock_dispo` counts exactly the available
(`est_disponible`) units whose `archiver` flag is NULL or TRUE; a unit
explicitly flagged `archiver = FALSE` never contributes (while an archived
unit does — see the counterexample). -/
theorem besoins_stock_count_formula :
    (∀ (top_n : ℕ) (exps : List Expedition) (units : List MoteurDispo),
      ∀ b ∈ get_besoins_moteurs top_n exps units,
        b.nb_stock_dispo = stockDispoCount units b.code_moteur) ∧
    (∀ (units : List MoteurDispo) (u : MoteurDispo) (code : List Char),
      u.archiver = some false →
        stockDispoCount (u :: units) code = stockDispoCount units code) := by
  constructor
  · intro top_n exps units b hb
    simp only [get_besoins_moteurs] at hb
    have hb2 := (perm_sortDescBy besoinKey _).mem_iff.mp hb
    rcases List.mem_map.mp hb2 with ⟨v, _, rfl⟩
    rfl
  · intro units u code harch
    simp [stockDispoCount, List.filter_cons, harch]

/-- Witness for `besoins_stock_count_formula`: both hypotheses discharged on
concrete data. -/
theorem besoins_stock_count_formula_witness :
    ((⟨['A'], true, some false⟩ : MoteurDispo).archiver = some false) ∧
      stockDispoCount [⟨['A'], true, some false⟩] ['A'] = stockDispoCount [] ['A'] :=
  ⟨rfl, besoins_stock_count_formula.2 [] ⟨['A'], true, some false⟩ ['A'] rfl⟩


/-! ### Claim C3: matcher filtering, ordering, stability -/

/-- C3: for a non-empty query and non-empty candidate list, the matcher keeps
exactly the candidates with positive score (a permutation of the positive
filter), sorted by descending score; candidates with equal scores keep their
original relative order (stable); if no candidate scores positively the result
is empty. -/
theorem smart_match_filter_sort_stable (q : List Char) (rows : List BesoinRow)
    (hq : q ≠ []) (hrows : rows ≠ []) :
    List.Perm (smart_match_motor q rows)
        (rows.filter (fun r => 0 < matchScore q r)) ∧
    (smart_match_motor q rows).Pairwise (sortKeyRel (fun r => matchScore q r)) ∧
    (∀ k : ℕ, 0 < k →
      (smart_match_motor q rows).filter (fun r => matchScore q r == k) =
        rows.filter (fun r => matchScore q r == k)) ∧
    ((∀ r ∈ rows, matchScore q r = 0) → smart_match_motor q rows = []) := by
  have hne : ¬ (q = [] ∨ rows = []) := by simp [hq, hrows]
  rw [smart_match_motor, if_neg hne]
  refine ⟨perm_sortDescBy _ _, pairwise_sortDescBy _ _, ?_, ?_⟩
  · intro k hk
    rw [filter_sortDescBy_key]
    rw [List.filter_filter]
    apply List.filter_congr
    intro r _
    by_cases he : matchScore q r = k
    · simp [he, hk]
    · simp [he]
  · intro h0
    have hnil : rows.filter (fun r => 0 < matchScore q r) = [] := by
      simp only [List.filter_eq_nil_iff]
      intro r hr
      simp [h0 r hr]
    rw [hnil]
    rfl

/-- Witness for `smart_match_filter_sort_stable`: its non-emptiness hypotheses
discharged on a concrete query and one concrete candidate row. -/
theorem smart_match_filter_sort_stable_witness :
    (['Z'] ≠ ([] : List Char)) ∧
      ([({ code_moteur := ['K'], marque := [], energie := [], type_nom := [],
           type_modele := [], type_annee := [] } : BesoinRow)] ≠ ([] : List BesoinRow)) ∧
      List.Perm
        (smart_match_motor ['Z']
          [({ code_moteur := ['K'], marque := [], energie := [], type_nom := [],
              type_modele := [], type_annee := [] } : BesoinRow)])
        (([({ code_moteur := ['K'], marque := [], energie := [], type_nom := [],
              type_modele := [], type_annee := [] } : BesoinRow)]).filter
          (fun r => 0 < matchScore ['Z'] r)) := by
  refine ⟨by decide, by decide, ?_⟩
  exact (smart_match_filter_sort_stable ['Z'] _ (by decide) (by decide)).1


/-! ### Claim C4: price movers -/

theorem mem_price_movers_spec {w lb minc : ℕ} {obs : List PriceObs} {r : MoverRec}
    (hr : r ∈ get_price_movers w lb minc obs) :
    minc ≤ r.n_recent ∧ minc ≤ r.n_prev ∧
    r.n_recent = (recentRows w lb obs r.code_moteur).length ∧
    r.n_prev = (prevRows w lb obs r.code_moteur).length ∧
    ∃ aR aP : ℚ,
      avgOf ((recentRows w lb obs r.code_moteur).map (fun b => b.prix)) = some aR ∧
      avgOf ((prevRows w lb obs r.code_moteur).map (fun b => b.prix)) = some aP ∧
      r.avg_recent = round2 aR ∧ r.avg_prev = round2 aP ∧
      r.delta = round2 (aR - aP) ∧
      r.pct = (if aP = 0 then none else some (round2 ((aR - aP) / aP * 100))) := by
  rw [get_price_movers] at hr
  rcases List.mem_filterMap.mp hr with ⟨c, _, hfc⟩
  dsimp only at hfc
  cases hR : avgOf ((recentRows w lb obs c).map (fun b => b.prix)) with
  | none => rw [hR] at hfc; simp at hfc
  | some aR =>
    cases hP : avgOf ((prevRows w lb obs c).map (fun b => b.prix)) with
    | none => rw [hR, hP] at hfc; simp at hfc
    | some aP =>
      rw [hR, hP] at hfc
      dsimp only at hfc
      by_cases hcond : minc ≤ (recentRows w lb obs c).length ∧
          minc ≤ (prevRows w lb obs c).length
      · rw [if_pos hcond] at hfc
        have hrec := Option.some.inj hfc
        subst hrec
        exact ⟨hcond.1, hcond.2, rfl, rfl, aR, aP, hR, hP, rfl, rfl, rfl, rfl⟩
      · rw [if_neg hcond] at hfc
        simp at hfc

/-- C4: every record in the price-movers output has at least `minCount`
observations in each window; the windows per code are the last `w` months and
exactly the `(w, 2w]` months before that; `delta` and `pct` come from the
window averages (output-rounded to 2 decimals), with `pct` null when the
previous average is 0; a code with fewer than `minCount` observations in
either window is absent; and an observation older than `2w` months belongs to
neither window. -/
theorem price_movers_windows_and_fields :
    (∀ (w lb minc : ℕ) (obs : List PriceObs), ∀ r ∈ get_price_movers w lb minc obs,
      minc ≤ r.n_recent ∧ minc ≤ r.n_prev ∧
      r.n_recent = (recentRows w lb obs r.code_moteur).length ∧
      r.n_prev = (prevRows w lb obs r.code_moteur).length ∧
      ∃ aR aP : ℚ,
        avgOf ((recentRows w lb obs r.code_moteur).map (fun b => b.prix)) = some aR ∧
        avgOf ((prevRows w lb obs r.code_moteur).map (fun b => b.prix)) = some aP ∧
        r.avg_recent = round2 aR ∧ r.avg_prev = round2 aP ∧
        r.delta = round2 (aR - aP) ∧
        r.pct = (if aP = 0 then none else some (round2 ((aR - aP) / aP * 100)))) ∧
    (∀ (w lb minc : ℕ) (obs : List PriceObs) (c : List Char),
      ((recentRows w lb obs c).length < minc ∨ (prevRows w lb obs c).length < minc) →
        c ∉ (get_price_movers w lb minc obs).map (fun r => r.code_moteur)) ∧
    (∀ (w lb : ℕ) (obs : List PriceObs) (o : PriceObs) (c : List Char),
      ((2 * w : ℕ) : ℚ) < o.ageMonths →
        recentRows w lb (obs ++ [o]) c = recentRows w lb obs c ∧
        prevRows w lb (obs ++ [o]) c = prevRows w lb obs c) := by
  refine ⟨?_, ?_, ?_⟩
  · intro w lb minc obs r hr
    exact mem_price_movers_spec hr
  · intro w lb minc obs c hlt hmem
    rcases List.mem_map.mp hmem with ⟨r, hr, hcode⟩
    have hspec := mem_price_movers_spec hr
    rcases hlt with h | h
    · have h1 := hspec.1
      rw [hspec.2.2.1, hcode] at h1
      omega
    · have h1 := hspec.2.1
      rw [hspec.2.2.2.1, hcode] at h1
      omega
  · intro w lb obs o c hage
    have hw2 : ((w : ℕ) : ℚ) ≤ ((2 * w : ℕ) : ℚ) := by
      push_cast
      have : (0 : ℚ) ≤ (w : ℚ) := Nat.cast_nonneg _
      linarith
    have hbase : ∀ b ∈ moversBase lb [o], b.age = o.ageMonths := by
      intro b hb
      rw [moversBase] at hb
      cases ho : o.prix with
      | none => simp [ho] at hb
      | some p =>
        simp only [List.filterMap_cons, List.filterMap_nil, ho] at hb
        split_ifs at hb
        · simp only [List.mem_singleton] at hb
          rw [hb]
        · simp at hb
    have hsplit : moversBase lb (obs ++ [o]) = moversBase lb obs ++ moversBase lb [o] := by
      simp only [moversBase]
      rw [List.filterMap_append]
    constructor
    · rw [recentRows, recentRows, hsplit]
      rw [List.filter_append]
      have h1 : (moversBase lb [o]).filter
          (fun b => b.code == c && decide (b.age ≤ (w : ℚ))) = [] := by
        rw [List.filter_eq_nil_iff]
        intro b hb
        have hage' : b.age = o.ageMonths := hbase b hb
        simp only [Bool.and_eq_true, decide_eq_true_eq, not_and]
        intro _ hle
        rw [hage'] at hle
        linarith
      rw [h1, List.append_nil]
    · rw [prevRows, prevRows, hsplit]
      rw [List.filter_append]
      have h1 : (moversBase lb [o]).filter
          (fun b => b.code == c && decide ((w : ℚ) < b.age) &&
            decide (b.age ≤ ((2 * w : ℕ) : ℚ))) = [] := by
        rw [List.filter_eq_nil_iff]
        intro b hb
        have hage' : b.age = o.ageMonths := hbase b hb
        simp only [Bool.and_eq_true, decide_eq_true_eq, not_and]
        intro _ hle
        rw [hage'] at hle
        linarith
      rw [h1, List.append_nil]

/-- Witness for `price_movers_windows_and_fields`: its small-sample exclusion
part applied to a code with 2 recent observations and `minCount = 5`. -/
theorem price_movers_windows_and_fields_witness :
    ((recentRows 3 12 [⟨['A'], 1, some 10⟩, ⟨['A'], 2, some 50⟩] ['A']).length < 5 ∨
      (prevRows 3 12 [⟨['A'], 1, some 10⟩, ⟨['A'], 2, some 50⟩] ['A']).length < 5) ∧
      ['A'] ∉ (get_price_movers 3 12 5
          [⟨['A'], 1, some 10⟩, ⟨['A'], 2, some 50⟩]).map (fun r => r.code_moteur) := by
  refine ⟨?_, ?_⟩
  · left
    decide
  · exact price_movers_windows_and_fields.2.1 3 12 5
      [⟨['A'], 1, some 10⟩, ⟨['A'], 2, some 50⟩] ['A'] (by left; decide)

end DMS
